import Mathlib

/-!
# static-server-node: a verification development

A shallow embedding of `module.go` (package `staticservernode`).  Go strings are
Lean `String`s handled through their character lists; Go's `(value, error)`
results are `Except String _`; the file system, the network and subprocesses are
an explicit `World` that every effectful function threads through.
-/

set_option autoImplicit false

deriving instance DecidableEq for Except

namespace StaticServerNode

/-! ## Strings (package `strings`) -/

/-- Go `unicode.IsSpace`: the Latin-1 spaces and the code points with the
White_Space property. -/
def unicodeIsSpace (c : Char) : Bool :=
  c == '\t' || c == '\n' || c.toNat == 0x0B || c.toNat == 0x0C || c == '\r' || c == ' ' ||
  c.toNat == 0x85 || c.toNat == 0xA0 || c.toNat == 0x1680 ||
  (0x2000 ≤ c.toNat && c.toNat ≤ 0x200A) ||
  c.toNat == 0x2028 || c.toNat == 0x2029 || c.toNat == 0x202F || c.toNat == 0x205F ||
  c.toNat == 0x3000

/-- Go `strings.TrimSpace`: leading and trailing white space removed. -/
def stringsTrimSpace (s : String) : String :=
  ⟨((s.data.dropWhile unicodeIsSpace).reverse.dropWhile unicodeIsSpace).reverse⟩

/-- Go `strings.HasPrefix`. -/
def stringsHasPrefix (s pre : String) : Bool :=
  pre.data.isPrefixOf s.data

/-- Go `unicode.ToLower` on the code points that matter to a comparison with an
ASCII literal: the ASCII capitals, and the two other code points whose lower
case is an ASCII letter (U+0130 gives `i`, U+212A gives `k`).  Every other code
point outside ASCII has a lower case outside ASCII and is left in place. -/
def unicodeToLower (c : Char) : Char :=
  if c.toNat = 0x130 then 'i' else if c.toNat = 0x212A then 'k' else c.toLower

/-- Go `strings.ToLower`. -/
def stringsToLower (s : String) : String :=
  ⟨s.data.map unicodeToLower⟩

/-- Go `strings.Contains`. -/
def stringsContains (s sub : String) : Bool :=
  s.data.tails.any (fun t => sub.data.isPrefixOf t)

/-- The pieces of a text between the occurrences of a separator character. -/
def splitOnChar (sep : Char) : List Char → List (List Char)
  | [] => [[]]
  | c :: cs =>
    match splitOnChar sep cs with
    | [] => [[]]
    | seg :: segs => if c = sep then [] :: seg :: segs else (c :: seg) :: segs

/-- Go `strings.Split(s, " ")`. -/
def stringsSplitSpace (s : String) : List String :=
  (splitOnChar ' ' s.data).map String.mk

/-- Go `strings.TrimSuffix`. -/
def stringsTrimSuffix (s suffix : String) : String :=
  if suffix.data.reverse.isPrefixOf s.data.reverse then
    ⟨s.data.take (s.data.length - suffix.data.length)⟩
  else s

/-- Go `strings.Join(elems, "/")` on character lists. -/
def joinSlash : List (List Char) → List Char
  | [] => []
  | [a] => a
  | a :: b :: rest => a ++ '/' :: joinSlash (b :: rest)

/-! ## `parseGitURL` (module.go 256-291) -/

structure gitURLInfo where
  Owner : String
  Repository : String
  Ref : String
deriving DecidableEq, Repr

/-- The class `\w` of Go regular expressions: `[0-9A-Za-z_]`. -/
def isWordChar (c : Char) : Bool :=
  c.isAlphanum || c == '_'

/-- The class `[\w-]` of the `owner` group. -/
def isOwnerChar (c : Char) : Bool :=
  isWordChar c || c == '-'

/-- The class `[\w.-]` of the `repo` group. -/
def isRepoChar (c : Char) : Bool :=
  isWordChar c || c == '.' || c == '-'

/-- The class of the `ref` group: `\w`, the slash and the hyphen. -/
def isRefChar (c : Char) : Bool :=
  isWordChar c || c == '/' || c == '-'

/-- The literal head `^git\+https:\/\/github\.com\/` of the pattern. -/
def gitURLHead : List Char :=
  "git+https://github.com/".data

/-- Removes a literal from the front of the text, when it is there. -/
def dropLiteral : List Char → List Char → Option (List Char)
  | [], s => some s
  | _ :: _, [] => none
  | p :: ps, c :: cs => if p = c then dropLiteral ps cs else none

/-- The pattern compiled by `regexp.MustCompile` in `parseGitURL`. -/
def gitURLPattern : String :=
  "^git\\+https:\\/\\/github\\.com\\/(?P<owner>[\\w-]+)\\/(?P<repo>[\\w.-]+)(?:#(?P<ref>[\\w\\/-]+))?$"

/-- The regular expressions the pattern is built from: literal text, `[class]+`,
a named group, a sequence, and the optional non-capturing group `(?:r)?`. -/
inductive Regex
  | lit (text : List Char)
  | plus (cls : Char → Bool)
  | group (name : String) (r : Regex)
  | seq (r1 r2 : Regex)
  | opt (r : Regex)

/-- The texts a regular expression matches, with the groups that took part. -/
def Regex.Matches : Regex → List Char → List (String × List Char) → Prop
  | .lit text, t, caps => t = text ∧ caps = []
  | .plus cls, t, caps => t ≠ [] ∧ t.all cls = true ∧ caps = []
  | .group name r, t, caps => ∃ c, r.Matches t c ∧ caps = (name, t) :: c
  | .seq r1 r2, t, caps =>
    ∃ t1 t2 c1 c2, t = t1 ++ t2 ∧ r1.Matches t1 c1 ∧ r2.Matches t2 c2 ∧ caps = c1 ++ c2
  | .opt r, t, caps => (t = [] ∧ caps = []) ∨ r.Matches t caps

/-- The pattern `gitURLPattern` between its anchors `^` and `$`. -/
def gitURLRegex : Regex :=
  .seq (.lit gitURLHead)
    (.seq (.group "owner" (.plus isOwnerChar))
      (.seq (.lit ['/'])
        (.seq (.group "repo" (.plus isRepoChar))
          (.opt (.seq (.lit ['#']) (.group "ref" (.plus isRefChar)))))))

/-- The anchored pattern `gitURLPattern` run on a text, giving the three groups
(`ref` empty when its group took no part).  Each `+` takes the longest run of
its class: the character the pattern asks for next (`/`, then `#` or the end)
is outside the class, so no shorter run can match, and `$` without the `m` flag
is the end of the text. -/
def matchGitURL (url : List Char) : Option (List Char × List Char × List Char) :=
  match dropLiteral gitURLHead url with
  | none => none
  | some rest =>
    let owner := rest.takeWhile isOwnerChar
    if owner = [] then none else
    match rest.dropWhile isOwnerChar with
    | '/' :: rest2 =>
      let repo := rest2.takeWhile isRepoChar
      if repo = [] then none else
      match rest2.dropWhile isRepoChar with
      | [] => some (owner, repo, [])
      | '#' :: ref => if ref ≠ [] ∧ ref.all isRefChar then some (owner, repo, ref) else none
      | _ :: _ => none
    | _ => none

/-- Go `re.MatchString(url)`. -/
def reMatchString (url : String) : Bool :=
  (matchGitURL url.data).isSome

/-- Go `re.FindStringSubmatch(url)`: the whole match, then the groups. -/
def reFindStringSubmatch (url : String) : List String :=
  match matchGitURL url.data with
  | none => []
  | some (owner, repo, ref) => [url, ⟨owner⟩, ⟨repo⟩, ⟨ref⟩]

/-- Go `re.SubexpNames()`. -/
def reSubexpNames : List String :=
  ["", "owner", "repo", "ref"]

/-- The body of the loop over `subexpNames`, at index `i`. -/
def assignGroup (submatches : List String) (info : gitURLInfo) (i : Nat) (name : String) :
    gitURLInfo :=
  if 0 < i ∧ i < submatches.length then
    if name = "owner" then { info with Owner := submatches.getD i "" }
    else if name = "repo" then { info with Repository := submatches.getD i "" }
    else if name = "ref" then { info with Ref := submatches.getD i "" }
    else info
  else info

/-- The loop `for i, name := range subexpNames`. -/
def assignGroups (submatches : List String) : List String → Nat → gitURLInfo → gitURLInfo
  | [], _, info => info
  | name :: names, i, info => assignGroups submatches names (i + 1) (assignGroup submatches info i name)

def parseGitURL (url : String) : Except String gitURLInfo :=
  if !reMatchString url then
    .error "URL does not match the expected format"
  else
    let submatches := reFindStringSubmatch url
    let info := assignGroups submatches reSubexpNames 0 ⟨"", "", ""⟩
    let info := if info.Ref = "" then { info with Ref := "main" } else info
    .ok info

/-- The owner and repository alphabet in the words of the specification:
word characters, hyphens and dots. -/
def specNameChar (c : Char) : Bool :=
  isWordChar c || c == '-' || c == '.'

/-- The reference grammar in the words of the specification:
`git+https://github.com/<owner>/<repo>` optionally followed by `#<ref>`, owner
and repo non-empty over word characters, hyphens and dots, ref non-empty over
word characters, hyphens and slashes. -/
def MatchesSpecGrammar (url : String) : Prop :=
  ∃ owner repo : List Char,
    owner ≠ [] ∧ owner.all specNameChar = true ∧ repo ≠ [] ∧ repo.all specNameChar = true ∧
    (url.data = gitURLHead ++ owner ++ '/' :: repo ∨
     ∃ ref : List Char, ref ≠ [] ∧ ref.all isRefChar = true ∧
       url.data = gitURLHead ++ owner ++ '/' :: repo ++ '#' :: ref)

/-- What the pattern accepts, group by group. -/
def AcceptedBy (url owner repo ref : List Char) : Prop :=
  owner ≠ [] ∧ owner.all isOwnerChar = true ∧ repo ≠ [] ∧ repo.all isRepoChar = true ∧
  ref.all isRefChar = true ∧
  url = gitURLHead ++ owner ++ '/' :: repo ++ (if ref = [] then [] else '#' :: ref)

/-! ## Paths (package `path/filepath`, slash-separated) -/

/-- One step of `filepath.Clean` over the elements of a path, the elements kept
so far being held last first. -/
def cleanStep (rooted : Bool) (kept : List (List Char)) (elem : List Char) : List (List Char) :=
  if elem = [] ∨ elem = ['.'] then kept
  else if elem = ['.', '.'] then
    match kept with
    | [] => if rooted then [] else [elem]
    | top :: below => if top = ['.', '.'] then elem :: kept else below
  else elem :: kept

/-- The elements of the cleaned path, first first. -/
def cleanElems (path : List Char) : List (List Char) :=
  ((splitOnChar '/' path).foldl (cleanStep (path.head? = some '/')) []).reverse

/-- Go `filepath.Clean`: no doubled separator, no `.` element, no inner `..`
element, no `..` at the start of a rooted path; `.` for an empty result. -/
def filepathClean (path : String) : String :=
  let elems := cleanElems path.data
  if path.data.head? = some '/' then ⟨'/' :: joinSlash elems⟩
  else if elems = [] then "." else ⟨joinSlash elems⟩

/-- Go `filepath.Join`: the non-empty elements joined by the separator and
cleaned; the empty string when there is none. -/
def filepathJoin (elems : List String) : String :=
  match (elems.map String.data).filter (fun e => !e.isEmpty) with
  | [] => ""
  | es => filepathClean ⟨joinSlash es⟩

/-- The scan of `filepath.Ext`, from the end of the path backwards. -/
def extScan : List Char → List Char → List Char
  | [], _ => []
  | c :: cs, acc => if c = '/' then [] else if c = '.' then '.' :: acc else extScan cs (c :: acc)

/-- Go `filepath.Ext`: the suffix from the last dot of the last element. -/
def filepathExt (path : String) : String :=
  ⟨extScan path.data.reverse []⟩

/-! ## The world outside the module -/

/-- What a path names. -/
inductive Entry
  | file (content : String)
  | dir
deriving DecidableEq, Repr

/-- The file system: cleaned paths and what they name. -/
abbrev FS := List (String × Entry)

/-- A download request of the `grab` client. -/
structure Request where
  dst : String
  url : String
  headers : List (String × String)
deriving DecidableEq, Repr

/-- A subprocess: `exec.Command(path, args...)` with its `Dir`. -/
structure Cmd where
  path : String
  args : List String
  dir : String
deriving DecidableEq, Repr

/-- The state the module acts on, with the record of what it asked of the
network and of the operating system. -/
structure World where
  fs : FS
  requests : List Request
  commands : List Cmd
deriving DecidableEq, Repr

/-- The constants of the process: `runtime.GOOS`, `runtime.GOARCH`,
`os.TempDir()` and `os.Getenv`. -/
structure Runtime where
  GOOS : String
  GOARCH : String
  TempDir : String
  Getenv : String → String

/-- The behaviour of the collaborators the module calls but does not contain:
whether `grab.NewRequest` accepts a URL, what a transfer leaves on disk and
reports (`resp.Filename` or `resp.Err()`), what `extract.Unpack` and a
subprocess do to the file system and whether they fail, and whether
`vmodutils.NewWebModuleAndStart` fails. -/
structure Outside where
  newRequestOk : String → Bool
  transfer : Request → FS → FS × Except String String
  unpack : String → String → FS → FS × Option String
  run : Cmd → FS → FS × Option String
  serve : String → String → Int → Option String

/-- Go `os.Stat`: the entry at the path, when there is one. -/
def osStat (fs : FS) (path : String) : Option Entry :=
  fs.lookup (filepathClean path)

/-- The paths of the ancestors of a cleaned path and of the path itself,
outermost first. -/
def pathChain (path : String) : List String :=
  let elems := cleanElems path.data
  let rooted := path.data.head? = some '/'
  (List.range elems.length).map fun i =>
    if rooted then ⟨'/' :: joinSlash (elems.take (i + 1))⟩ else ⟨joinSlash (elems.take (i + 1))⟩

/-- The slow path of `os.MkdirAll`: every missing directory of the chain is
made, and a file in the way is an error. -/
def mkdirChain : FS → List String → Except String FS
  | fs, [] => .ok fs
  | fs, p :: ps =>
    match fs.lookup p with
    | some Entry.dir => mkdirChain fs ps
    | some (Entry.file _) => .error "not a directory"
    | none => mkdirChain ((p, Entry.dir) :: fs) ps

/-- Go `os.MkdirAll`: nothing to do when the path is a directory, an error when
it is a file, and otherwise the parents and the path are created. -/
def osMkdirAll (fs : FS) (path : String) : Except String FS :=
  match osStat fs path with
  | some Entry.dir => .ok fs
  | some (Entry.file _) => .error "not a directory"
  | none => mkdirChain fs (pathChain path)

/-- Whether the cleaned path `child` lies strictly below the cleaned path `parent`. -/
def isBelow (parent child : String) : Bool :=
  let p := cleanElems parent.data
  let c := cleanElems child.data
  p.isPrefixOf c && p.length < c.length &&
    (decide (parent.data.head? = some '/') == decide (child.data.head? = some '/'))

/-- Go `os.ReadDir`: the names of the entries directly inside a directory. -/
def osReadDir (fs : FS) (path : String) : Except String (List String) :=
  match osStat fs path with
  | some Entry.dir =>
    .ok ((fs.filter fun e => isBelow path e.1 &&
            (cleanElems e.1.data).length == (cleanElems path.data).length + 1).map
          fun e => ⟨(cleanElems e.1.data).getLastD []⟩)
  | some (Entry.file _) => .error "not a directory"
  | none => .error "no such file or directory"

/-- Go `os.RemoveAll`: the path and everything below it are gone. -/
def osRemoveAll (fs : FS) (path : String) : FS :=
  fs.filter fun e => !(e.1 == filepathClean path || isBelow path e.1)

/-- Go `os.ReadFile`. -/
def osReadFile (fs : FS) (path : String) : Except String String :=
  match osStat fs path with
  | some (Entry.file content) => .ok content
  | some Entry.dir => .error "is a directory"
  | none => .error "no such file or directory"

/-- Go `os.Open` followed by `f.Name()`: the name the file was opened under. -/
def osOpen (fs : FS) (path : String) : Except String String :=
  match osStat fs path with
  | some _ => .ok path
  | none => .error "no such file or directory"

/-! ## The module (module.go) -/

structure Config where
  Path : String
  AccessToken : Option String
  NodeVersion : Option String
  BuildCommand : Option String
  BuildDir : Option String
  Port : Option Int

/-- The three results of `Validate`: the two dependency lists (`none` is the
nil slice) and the error (`none` is the nil error). -/
structure ValidateResult where
  implicitDeps : Option (List String)
  optionalDeps : Option (List String)
  err : Option String
deriving DecidableEq, Repr

def Config.Validate (cfg : Config) (_path : String) : ValidateResult :=
  if (stringsTrimSpace cfg.Path).length = 0 then
    ⟨none, none, some "path is required"⟩
  else if !stringsHasPrefix cfg.Path "git+" then
    ⟨none, none, some "only git paths are currently supported"⟩
  else
    ⟨none, none, none⟩

/-- The fields of the server the pipeline reads: `s.name.Name` and `s.cfg`. -/
structure staticServerNodeServer where
  name : String
  cfg : Config

def isStringRefEmpty (str : Option String) : Bool :=
  match str with
  | none => true
  | some v => (stringsTrimSpace v).length = 0

/-- The model triple `Server = resource.NewModel("viam", "static-server-node", "server")`. -/
def serverNamespace : String := "viam"

def serverFamilyName : String := "static-server-node"

def serverModelName : String := "server"

/-- The path computed by `getCacheDir`, before `os.MkdirAll`. -/
def cacheDirPath (rt : Runtime) (s : staticServerNodeServer) : String :=
  filepathJoin [rt.TempDir, "viam", serverNamespace, serverFamilyName, serverModelName, s.name]

def getCacheDir (rt : Runtime) (s : staticServerNodeServer) (w : World) :
    World × Except String String :=
  let cacheDir := cacheDirPath rt s
  match osMkdirAll w.fs cacheDir with
  | .error e => (w, .error e)
  | .ok fs => ({ w with fs := fs }, .ok cacheDir)

def getNodeVersion (s : staticServerNodeServer) : String :=
  let nodeVersion := "22.19.0"
  let nodeVersion := if !isStringRefEmpty s.cfg.NodeVersion then s.cfg.NodeVersion.getD "" else nodeVersion
  if !stringsHasPrefix nodeVersion "v" then "v" ++ nodeVersion else nodeVersion

def getNodeFilenameAndExt (rt : Runtime) (s : staticServerNodeServer) : String × String :=
  let platform := rt.GOOS
  let arch := rt.GOARCH
  let arch := if stringsToLower arch = "amd64" then "x64" else arch
  let arch := if stringsToLower arch = "386" then "x86" else arch
  let suffix := "tar.xz"
  let suffix := if stringsToLower platform = "darwin" then "tar.gz" else suffix
  let suffix := if stringsToLower platform = "windows" then "zip" else suffix
  ("node-" ++ getNodeVersion s ++ "-" ++ platform ++ "-" ++ arch, suffix)

def getNodeURL (rt : Runtime) (s : staticServerNodeServer) : String :=
  let nodeVersion := getNodeVersion s
  let (fileName, ext) := getNodeFilenameAndExt rt s
  "https://nodejs.org/dist/" ++ nodeVersion ++ "/" ++ fileName ++ "." ++ ext

def isNodeDownloaded (rt : Runtime) (s : staticServerNodeServer) (w : World) :
    World × Bool × String :=
  match getCacheDir rt s w with
  | (w1, .error _) => (w1, false, "")
  | (w1, .ok cache) =>
    let nodeFileName := (getNodeFilenameAndExt rt s).1
    let filePath := filepathJoin [cache, nodeFileName]
    match osStat w1.fs filePath with
    | some _ => (w1, true, filePath)
    | none => (w1, false, "")

/-- The loop `for _, c := range contents { os.RemoveAll(filepath.Join(cacheDir, c.Name())) }`. -/
def removeContents (cacheDir : String) : FS → List String → FS
  | fs, [] => fs
  | fs, c :: cs => removeContents cacheDir (osRemoveAll fs (filepathJoin [cacheDir, c])) cs

/-- The part shared by both downloads, from `client.Do(req)` on: the request is
issued, the loop waits for the transfer to be done, then the file is opened and
unpacked into the cache directory.  The result is `f.Name()`. -/
def fetchAndUnpack (out : Outside) (cacheDir : String) (req : Request) (w : World) :
    World × Except String String :=
  let w1 : World := { w with requests := w.requests ++ [req] }
  match out.transfer req w1.fs with
  | (fs2, .error e) => ({ w1 with fs := fs2 }, .error e)
  | (fs2, .ok filename) =>
    match osOpen fs2 filename with
    | .error e => ({ w1 with fs := fs2 }, .error e)
    | .ok fname =>
      match out.unpack cacheDir fname fs2 with
      | (fs3, some e) => ({ w1 with fs := fs3 }, .error e)
      | (fs3, none) => ({ w1 with fs := fs3 }, .ok fname)

/-- The preparation of the cache on a miss (module.go 195-204): the cache
directory emptied, or `os.TempDir()` when the cache directory cannot be had. -/
def prepareCacheDir (rt : Runtime) (s : staticServerNodeServer) (w : World) : World × String :=
  match getCacheDir rt s w with
  | (w2, .error _) => (w2, rt.TempDir)
  | (w2, .ok cacheDir) =>
    match osReadDir w2.fs cacheDir with
    | .ok contents => ({ w2 with fs := removeContents cacheDir w2.fs contents }, cacheDir)
    | .error _ => (w2, cacheDir)

def downloadNode (out : Outside) (rt : Runtime) (s : staticServerNodeServer) (w : World) :
    World × Except String String :=
  match isNodeDownloaded rt s w with
  | (w1, true, nodePath) => (w1, .ok nodePath)
  | (w1, false, _) =>
    let prepared := prepareCacheDir rt s w1
    let cacheDir := prepared.2
    if !out.newRequestOk (getNodeURL rt s) then
      (prepared.1, .error "invalid request URL")
    else
      match fetchAndUnpack out cacheDir ⟨cacheDir, getNodeURL rt s, []⟩ prepared.1 with
      | (w3, .error e) => (w3, .error e)
      | (w3, .ok _) =>
        let fileName := (getNodeFilenameAndExt rt s).1
        (w3, .ok (filepathJoin [cacheDir, fileName]))

def downloadGitRepo (out : Outside) (rt : Runtime) (s : staticServerNodeServer) (w : World) :
    World × Except String String :=
  match parseGitURL s.cfg.Path with
  | .error e => (w, .error e)
  | .ok gitInfo =>
    let gitUrl := "https://api.github.com/repos/" ++ gitInfo.Owner ++ "/" ++ gitInfo.Repository ++
      "/zipball/" ++ gitInfo.Ref
    match getCacheDir rt s w with
    | (w1, .error e) => (w1, .error e)
    | (w1, .ok cacheDir) =>
      let headers : List (String × String) :=
        if !isStringRefEmpty s.cfg.AccessToken then
          [("Authorization", "token " ++ stringsTrimSpace (s.cfg.AccessToken.getD ""))]
        else []
      if !out.newRequestOk gitUrl then
        if !isStringRefEmpty s.cfg.AccessToken then
          (w1, .error "panic: nil pointer dereference")
        else (w1, .error "invalid request URL")
      else
        match fetchAndUnpack out cacheDir ⟨cacheDir, gitUrl, headers⟩ w1 with
        | (w2, .error e) => (w2, .error e)
        | (w2, .ok fname) => (w2, .ok (stringsTrimSuffix fname (filepathExt fname)))

def getProjectDir (out : Outside) (rt : Runtime) (s : staticServerNodeServer) (w : World) :
    World × Except String String :=
  if stringsHasPrefix s.cfg.Path "git+" then
    match downloadGitRepo out rt s w with
    | (w1, .error e) => (w1, .error e)
    | (w1, .ok gitDir) => (w1, .ok gitDir)
  else (w, .error "UNREACHABLE CODE PATH")

def getBuilder (fs : FS) (projectDir : String) : String :=
  match osReadFile fs (projectDir ++ "package.json") with
  | .error _ => "vite"
  | .ok packageJson =>
    if stringsContains packageJson "rollup" then "rollup"
    else if stringsContains packageJson "wepback" then "webpack"
    else "vite"

def generateEnvVars (rt : Runtime) (fs : FS) (projectDir : String) : String :=
  let envVarPrefix := ""
  let builder := getBuilder fs projectDir
  let envVarPrefix := if builder = "vite" then "VITE_" else envVarPrefix
  envVarPrefix ++ "VIAM_API_KEY=" ++ rt.Getenv "VIAM_API_KEY" ++ " " ++
    envVarPrefix ++ "VIAM_API_KEY_ID=" ++ rt.Getenv "VIAM_API_KEY_ID"

/-- The first subprocess of `buildAndGetFS`: `exec.Command(npm, "install")`
with `Dir = projectDir`. -/
def installCmd (rt : Runtime) (nodeDir projectDir : String) : Cmd :=
  let npm := filepathJoin [nodeDir, "bin", "npm"]
  let npm := if rt.GOOS = "windows" then filepathJoin [nodeDir, "npm"] else npm
  ⟨npm, ["install"], projectDir⟩

/-- The value of the variable `npm` when the build command line is composed:
on Windows it has been assigned a second time (module.go 359-361). -/
def npmAtBuild (rt : Runtime) (nodeDir : String) : String :=
  let npm := filepathJoin [nodeDir, "bin", "npm"]
  let npm := if rt.GOOS = "windows" then filepathJoin [nodeDir, "npm"] else npm
  if rt.GOOS = "windows" then filepathJoin [nodeDir, "npx"] else npm

/-- The value of the variable `npx`: assigned once (module.go 358). -/
def npxAtBuild (nodeDir : String) : String :=
  filepathJoin [nodeDir, "bin", "npx"]

/-- The command line composed by `fmt.Sprintf("--yes cross-env %s %s run %s", ...)`. -/
def buildCommandLine (rt : Runtime) (s : staticServerNodeServer) (fs : FS)
    (nodeDir projectDir : String) : String :=
  let buildCommand := "build"
  let buildCommand :=
    if !isStringRefEmpty s.cfg.BuildCommand then s.cfg.BuildCommand.getD "" else buildCommand
  let envVars := generateEnvVars rt fs projectDir
  "--yes cross-env " ++ envVars ++ " " ++ npmAtBuild rt nodeDir ++ " run " ++ buildCommand

/-- The second subprocess: `exec.Command(npx, args...)` with `Dir = projectDir`,
where `fs` is the file system the install step left. -/
def buildCmd (rt : Runtime) (s : staticServerNodeServer) (fs : FS)
    (nodeDir projectDir : String) : Cmd :=
  ⟨npxAtBuild nodeDir, stringsSplitSpace (buildCommandLine rt s fs nodeDir projectDir), projectDir⟩

/-- The output path: `filepath.Join(projectDir, buildDir)`. -/
def buildDirPath (s : staticServerNodeServer) (projectDir : String) : String :=
  let buildDir := "dist"
  let buildDir := if !isStringRefEmpty s.cfg.BuildDir then s.cfg.BuildDir.getD "" else buildDir
  filepathJoin [projectDir, buildDir]

/-- The result is the root of the `os.DirFS` handle (`os.DirFS` is its root path). -/
def buildAndGetFS (out : Outside) (rt : Runtime) (s : staticServerNodeServer)
    (nodeDir projectDir : String) (w : World) : World × Except String String :=
  let install := installCmd rt nodeDir projectDir
  let w1 : World := { w with commands := w.commands ++ [install] }
  match out.run install w1.fs with
  | (fs1, some e) => ({ w1 with fs := fs1 }, .error e)
  | (fs1, none) =>
    let build := buildCmd rt s fs1 nodeDir projectDir
    let w2 : World := { w1 with fs := fs1, commands := w1.commands ++ [build] }
    match out.run build fs1 with
    | (fs2, some e) => ({ w2 with fs := fs2 }, .error e)
    | (fs2, none) =>
      let buildDir := buildDirPath s projectDir
      match osStat fs2 buildDir with
      | none => ({ w2 with fs := fs2 }, .error "no such file or directory")
      | some _ => ({ w2 with fs := fs2 }, .ok buildDir)

/-- What `NewServer` hands to `vmodutils.NewWebModuleAndStart`. -/
structure WebModule where
  name : String
  root : String
  port : Int
deriving DecidableEq, Repr

def NewServer (out : Outside) (rt : Runtime) (name : String) (conf : Config) (w : World) :
    World × Except String WebModule :=
  let s : staticServerNodeServer := ⟨name, conf⟩
  match downloadNode out rt s w with
  | (w1, .error e) => (w1, .error e)
  | (w1, .ok nodeDir) =>
    match getProjectDir out rt s w1 with
    | (w2, .error e) => (w2, .error e)
    | (w2, .ok projectDir) =>
      match buildAndGetFS out rt s nodeDir projectDir w2 with
      | (w3, .error e) => (w3, .error e)
      | (w3, .ok buildFS) =>
        let port : Int := 8888
        let port := match conf.Port with
          | some p => p
          | none => port
        match out.serve name buildFS port with
        | some e => (w3, .error e)
        | none => (w3, .ok ⟨name, buildFS, port⟩)

/-! ## The tables of the specification -/

/-- The architecture aliasing in the words of the specification: `amd64` gives
`x64`, `386` gives `x86`, every other architecture string passes unchanged. -/
def specArchAlias (arch : String) : String :=
  if arch = "amd64" then "x64" else if arch = "386" then "x86" else arch

/-- The extension in the words of the specification: `tar.gz` for the platform
`darwin`, `zip` for `windows`, `tar.xz` for every other platform. -/
def specExtension (platform : String) : String :=
  if platform = "darwin" then "tar.gz" else if platform = "windows" then "zip" else "tar.xz"

/-- The values `runtime.GOOS` takes: the operating system names known to the Go
toolchain, all of them lower-case constants. -/
def knownGOOS : List String :=
  ["aix", "android", "darwin", "dragonfly", "freebsd", "hurd", "illumos", "ios", "js", "linux",
   "nacl", "netbsd", "openbsd", "plan9", "solaris", "wasip1", "windows", "zos"]

/-- The values `runtime.GOARCH` takes: the architecture names known to the Go
toolchain, all of them lower-case constants. -/
def knownGOARCH : List String :=
  ["386", "amd64", "amd64p32", "arm", "armbe", "arm64", "arm64be", "loong64", "mips", "mipsle",
   "mips64", "mips64le", "mips64p32", "mips64p32le", "ppc", "ppc64", "ppc64le", "riscv",
   "riscv64", "s390", "s390x", "sparc", "sparc64", "wasm"]

/-- A configuration with only its `Path` set. -/
def pathOnly (path : String) : Config :=
  ⟨path, none, none, none, none, none⟩

/-- A Linux process on `amd64` with `/tmp` as temporary directory and an empty
environment. -/
def linuxRuntime : Runtime :=
  ⟨"linux", "amd64", "/tmp", fun _ => ""⟩

/-- Collaborators that always succeed: a transfer leaves the file `download.zip`
in the destination, unpacking leaves the directory `download` there,
subprocesses leave the file system as it is. -/
def cooperativeOutside : Outside where
  newRequestOk := fun _ => true
  transfer := fun req fs =>
    ((filepathJoin [req.dst, "download.zip"], Entry.file "") :: fs,
      .ok (filepathJoin [req.dst, "download.zip"]))
  unpack := fun dst _ fs => ((filepathJoin [dst, "download"], Entry.dir) :: fs, none)
  run := fun _ fs => (fs, none)
  serve := fun _ _ _ => none

/-- The world before anything has run: an empty file system, no request issued,
no subprocess run. -/
def emptyWorld : World :=
  ⟨[], [], []⟩

/-- A world whose cache directory for the instance `foo` holds the toolchain
of `linuxRuntime` and one other entry. -/
def cachedWorld : World :=
  ⟨[("/tmp/viam/viam/static-server-node/server/foo", Entry.dir),
    ("/tmp/viam/viam/static-server-node/server/foo/node-v22.19.0-linux-x64", Entry.dir),
    ("/tmp/viam/viam/static-server-node/server/foo/acme-widgets-1a2b3c", Entry.dir)], [], []⟩

/-- A manifest that names the `rollup` bundler among its development
dependencies. -/
def rollupManifest : String :=
  "\x7b \"devDependencies\": \x7b \"rollup\": \"^4.0.0\" \x7d \x7d"

/-- A project tree whose manifest names the `rollup` bundler. -/
def rollupProject : FS :=
  [("/cache/acme-widgets-1a2b3c", Entry.dir),
   ("/cache/acme-widgets-1a2b3c/package.json",
      Entry.file rollupManifest)]

/-- A project tree in which `dist` is a regular file. -/
def distFileProject : FS :=
  [("/cache/acme-widgets-1a2b3c", Entry.dir),
   ("/cache/acme-widgets-1a2b3c/dist", Entry.file "not a directory")]

/-- A Windows process on `amd64`. -/
def windowsRuntime : Runtime :=
  ⟨"windows", "amd64", "/tmp", fun _ => ""⟩

/-! ## Lemmas on the matcher -/

theorem dropLiteral_append (p s : List Char) : dropLiteral p (p ++ s) = some s := by
  induction p with
  | nil => rfl
  | cons a p ih => simp [dropLiteral, ih]

theorem dropLiteral_eq_some {p s r : List Char} (h : dropLiteral p s = some r) : s = p ++ r := by
  induction p generalizing s with
  | nil => simp [dropLiteral] at h; simp [h]
  | cons a p ih =>
    cases s with
    | nil => simp [dropLiteral] at h
    | cons c cs =>
      simp only [dropLiteral] at h
      split at h
      · rename_i hac
        simp [hac, ih h]
      · simp at h

theorem takeWhile_run (p : Char → Bool) (l : List Char) (c : Char) (r : List Char)
    (hl : l.all p = true) (hc : p c = false) : (l ++ c :: r).takeWhile p = l := by
  induction l with
  | nil => simp [List.takeWhile, hc]
  | cons a l ih =>
    simp only [List.all_cons, Bool.and_eq_true] at hl
    simp [List.takeWhile, hl.1, ih hl.2]

theorem dropWhile_run (p : Char → Bool) (l : List Char) (c : Char) (r : List Char)
    (hl : l.all p = true) (hc : p c = false) : (l ++ c :: r).dropWhile p = c :: r := by
  induction l with
  | nil => simp [List.dropWhile, hc]
  | cons a l ih =>
    simp only [List.all_cons, Bool.and_eq_true] at hl
    simp [List.dropWhile, hl.1, ih hl.2]

theorem takeWhile_all (p : Char → Bool) (l : List Char) (hl : l.all p = true) :
    l.takeWhile p = l := by
  induction l with
  | nil => rfl
  | cons a l ih =>
    simp only [List.all_cons, Bool.and_eq_true] at hl
    simp [List.takeWhile, hl.1, ih hl.2]

theorem dropWhile_all (p : Char → Bool) (l : List Char) (hl : l.all p = true) :
    l.dropWhile p = [] := by
  induction l with
  | nil => rfl
  | cons a l ih =>
    simp only [List.all_cons, Bool.and_eq_true] at hl
    simp [List.dropWhile, hl.1, ih hl.2]

theorem all_takeWhile (p : Char → Bool) (l : List Char) : (l.takeWhile p).all p = true := by
  induction l with
  | nil => rfl
  | cons a l ih =>
    by_cases h : p a = true
    · simp [List.takeWhile, h]
    · simp [List.takeWhile, h]

theorem matchGitURL_complete {url owner repo ref : List Char}
    (h : AcceptedBy url owner repo ref) : matchGitURL url = some (owner, repo, ref) := by
  obtain ⟨ho, hoc, hr, hrc, hfc, hurl⟩ := h
  have hs : isOwnerChar '/' = false := by decide
  have hh : isRepoChar '#' = false := by decide
  subst hurl
  unfold matchGitURL
  rw [List.append_assoc, List.append_assoc, dropLiteral_append]
  by_cases hf : ref = []
  · subst hf
    simp only [List.cons_append, takeWhile_run isOwnerChar owner '/' _ hoc hs,
      dropWhile_run isOwnerChar owner '/' _ hoc hs, if_neg ho, if_true, List.append_nil,
      takeWhile_all isRepoChar repo hrc, dropWhile_all isRepoChar repo hrc, if_neg hr]
  · simp only [List.cons_append, takeWhile_run isOwnerChar owner '/' _ hoc hs,
      dropWhile_run isOwnerChar owner '/' _ hoc hs, if_neg ho, if_neg hf,
      takeWhile_run isRepoChar repo '#' _ hrc hh, dropWhile_run isRepoChar repo '#' _ hrc hh,
      if_neg hr]
    simp [hf, hfc]

theorem matchGitURL_sound {url owner repo ref : List Char}
    (h : matchGitURL url = some (owner, repo, ref)) : AcceptedBy url owner repo ref := by
  unfold matchGitURL at h
  split at h
  · simp at h
  · rename_i rest hrest
    have hurl := dropLiteral_eq_some hrest
    have e1 := List.takeWhile_append_dropWhile isOwnerChar rest
    simp only at h
    split at h
    · simp at h
    · rename_i hown
      split at h
      · rename_i rest2 hd1
        have e2 := List.takeWhile_append_dropWhile isRepoChar rest2
        split at h
        · simp at h
        · rename_i hrepo
          split at h
          · rename_i hd2
            simp only [Option.some.injEq, Prod.mk.injEq] at h
            obtain ⟨h1, h2, h3⟩ := h
            subst h1 h2 h3
            refine ⟨hown, all_takeWhile _ _, hrepo, all_takeWhile _ _, rfl, ?_⟩
            conv_lhs => rw [hurl, ← e1, hd1, ← e2, hd2]
            simp
          · rename_i f hd2
            split at h
            · rename_i hf
              simp only [Option.some.injEq, Prod.mk.injEq] at h
              obtain ⟨h1, h2, h3⟩ := h
              subst h1 h2 h3
              refine ⟨hown, all_takeWhile _ _, hrepo, all_takeWhile _ _, hf.2, ?_⟩
              rw [if_neg hf.1]
              conv_lhs => rw [hurl, ← e1, hd1, ← e2, hd2]
              simp
            · simp at h
          · simp at h
      · simp at h

/-- The matcher returns exactly the groups of a text the pattern accepts. -/
theorem matchGitURL_iff (url owner repo ref : List Char) :
    matchGitURL url = some (owner, repo, ref) ↔ AcceptedBy url owner repo ref :=
  ⟨matchGitURL_sound, matchGitURL_complete⟩

theorem Regex.matches_lit (text : List Char) : (Regex.lit text).Matches text [] :=
  ⟨rfl, rfl⟩

theorem Regex.matches_plus (cls : Char → Bool) (t : List Char) (h : t ≠ [])
    (hc : t.all cls = true) : (Regex.plus cls).Matches t [] :=
  ⟨h, hc, rfl⟩

theorem Regex.matches_group (name : String) {r : Regex} {t : List Char}
    {c : List (String × List Char)} (h : r.Matches t c) :
    (Regex.group name r).Matches t ((name, t) :: c) :=
  ⟨c, h, rfl⟩

theorem Regex.matches_seq {r1 r2 : Regex} {t1 t2 : List Char}
    {c1 c2 : List (String × List Char)} (h1 : r1.Matches t1 c1) (h2 : r2.Matches t2 c2) :
    (Regex.seq r1 r2).Matches (t1 ++ t2) (c1 ++ c2) :=
  ⟨t1, t2, c1, c2, rfl, h1, h2, rfl⟩

theorem Regex.matches_opt_none (r : Regex) : (Regex.opt r).Matches [] [] :=
  Or.inl ⟨rfl, rfl⟩

theorem Regex.matches_opt_some {r : Regex} {t : List Char} {c : List (String × List Char)}
    (h : r.Matches t c) : (Regex.opt r).Matches t c :=
  Or.inr h

/-- The matcher agrees with the regular expression: the whole text matches
`gitURLRegex` with some groups exactly when the matcher returns these groups. -/
theorem gitURLRegex_matches_iff (url : List Char) (caps : List (String × List Char)) :
    gitURLRegex.Matches url caps ↔
      ∃ owner repo ref, matchGitURL url = some (owner, repo, ref) ∧
        caps = ("owner", owner) :: ("repo", repo) :: (if ref = [] then [] else [("ref", ref)]) := by
  constructor
  · intro h
    simp only [gitURLRegex, Regex.Matches] at h
    obtain ⟨t1, t2, c1, c2, hurl, ⟨ht1, hc1⟩, ⟨t3, t4, c3, c4, ht2, ⟨c5, ⟨ho, hoc, hc5⟩, hc3⟩,
      ⟨t5, t6, c6, c7, ht4, ⟨ht5, hc6⟩, ⟨t7, t8, c8, c9, ht6, ⟨c10, ⟨hr, hrc, hc10⟩, hc8⟩, hopt,
      hc7⟩, hc4⟩, hc2⟩, hcaps⟩ := h
    subst hurl ht1 hc1 ht2 hc5 hc3 ht4 ht5 hc6 ht6 hc10 hc8 hc7 hc4 hc2 hcaps
    rcases hopt with ⟨ht8, hc9⟩ | ⟨t9, t10, c11, c12, ht8, ⟨ht9, hc11⟩, ⟨c13, ⟨hf, hfc, hc13⟩, hc12⟩,
      hc9⟩
    · subst ht8 hc9
      refine ⟨t3, t7, [], matchGitURL_complete ⟨ho, hoc, hr, hrc, rfl, ?_⟩, ?_⟩
      · simp
      · simp
    · subst ht8 ht9 hc11 hc13 hc12 hc9
      refine ⟨t3, t7, t10, matchGitURL_complete ⟨ho, hoc, hr, hrc, hfc, ?_⟩, ?_⟩
      · simp [hf]
      · simp [hf]
  · rintro ⟨owner, repo, ref, hm, hcaps⟩
    obtain ⟨ho, hoc, hr, hrc, hfc, hurl⟩ := matchGitURL_sound hm
    have hown := Regex.matches_group "owner" (Regex.matches_plus isOwnerChar owner ho hoc)
    have hrepo := Regex.matches_group "repo" (Regex.matches_plus isRepoChar repo hr hrc)
    by_cases hf : ref = []
    · have h := Regex.matches_seq (Regex.matches_lit gitURLHead)
        (Regex.matches_seq hown (Regex.matches_seq (Regex.matches_lit ['/'])
          (Regex.matches_seq hrepo
            (Regex.matches_opt_none (.seq (.lit ['#']) (.group "ref" (.plus isRefChar)))))))
      rw [hurl, hcaps, if_pos hf, if_pos hf]
      simpa [gitURLRegex] using h
    · have href := Regex.matches_group "ref" (Regex.matches_plus isRefChar ref hf hfc)
      have h := Regex.matches_seq (Regex.matches_lit gitURLHead)
        (Regex.matches_seq hown (Regex.matches_seq (Regex.matches_lit ['/'])
          (Regex.matches_seq hrepo
            (Regex.matches_opt_some (Regex.matches_seq (Regex.matches_lit ['#']) href)))))
      rw [hurl, hcaps, if_neg hf, if_neg hf]
      simpa [gitURLRegex] using h

theorem mk_eq_empty_iff (l : List Char) : (String.mk l = "") ↔ l = [] := by
  constructor
  · intro h
    have := congrArg String.data h
    simpa using this
  · intro h
    subst h
    rfl

theorem parseGitURL_of_match {url : String} {owner repo ref : List Char}
    (h : matchGitURL url.data = some (owner, repo, ref)) :
    parseGitURL url = .ok ⟨⟨owner⟩, ⟨repo⟩, if ref = [] then "main" else ⟨ref⟩⟩ := by
  unfold parseGitURL reMatchString reFindStringSubmatch
  rw [h]
  by_cases hf : ref = []
  · subst hf
    simp [assignGroups, assignGroup, reSubexpNames]
  · have hne : ¬ (String.mk ref = "") := fun e => hf ((mk_eq_empty_iff ref).1 e)
    simp [assignGroups, assignGroup, reSubexpNames, hf, hne]

theorem parseGitURL_of_none {url : String} (h : matchGitURL url.data = none) :
    parseGitURL url = .error "URL does not match the expected format" := by
  unfold parseGitURL reMatchString
  rw [h]
  rfl

theorem parseGitURL_ok_match {url : String} {info : gitURLInfo}
    (h : parseGitURL url = .ok info) :
    ∃ owner repo ref, matchGitURL url.data = some (owner, repo, ref) ∧
      info = ⟨⟨owner⟩, ⟨repo⟩, if ref = [] then "main" else ⟨ref⟩⟩ := by
  cases hm : matchGitURL url.data with
  | none => rw [parseGitURL_of_none hm] at h; cases h
  | some t =>
    obtain ⟨owner, repo, ref⟩ := t
    rw [parseGitURL_of_match hm] at h
    exact ⟨owner, repo, ref, rfl, by cases h; rfl⟩

theorem split_at_unique (a : Char) :
    ∀ (l1 l2 l3 l4 : List Char), a ∉ l1 → a ∉ l2 → l1 ++ a :: l2 = l3 ++ a :: l4 → l2 = l4
  | [], l2, [], l4, _, _, h => by simpa using h
  | [], l2, b :: l3, l4, _, h2, h => by
    simp only [List.nil_append, List.cons_append, List.cons.injEq] at h
    exact absurd (h.2 ▸ (by simp : a ∈ l3 ++ a :: l4)) h2
  | c :: l1, l2, [], l4, h1, _, h => by
    simp only [List.nil_append, List.cons_append, List.cons.injEq] at h
    exact absurd (h.1 ▸ (by simp : c ∈ c :: l1)) h1
  | c :: l1, l2, b :: l3, l4, h1, h2, h => by
    simp only [List.cons_append, List.cons.injEq] at h
    exact split_at_unique a l1 l2 l3 l4 (fun hm => h1 (List.mem_cons_of_mem _ hm)) h2 h.2

theorem not_mem_of_all (p : Char → Bool) (a : Char) (ha : p a = false) (l : List Char)
    (hl : l.all p = true) : a ∉ l := by
  intro hm
  rw [List.all_eq_true] at hl
  have := hl a hm
  rw [ha] at this
  cases this

/-! ## Claims on `parseGitURL` -/

/-- C1 (counterexample): the owner "a.b" is made of word characters and a dot,
yet `parseGitURL` rejects "git+https://github.com/a.b/widgets#main": the owner
class of the pattern has no dot. -/
theorem parseGitURL_dotted_owner_rejected :
    ("a.b".data ≠ [] ∧ "a.b".data.all specNameChar = true) ∧
    ("widgets".data ≠ [] ∧ "widgets".data.all specNameChar = true) ∧
    ("main".data ≠ [] ∧ "main".data.all isRefChar = true) ∧
    parseGitURL ("git+https://github.com/" ++ "a.b" ++ "/" ++ "widgets" ++ "#" ++ "main")
      = .error "URL does not match the expected format" := by
  decide

/-- C1 (amended): for every non-empty owner over word characters and hyphens,
every non-empty repo over word characters, hyphens and dots, and every
non-empty ref over word characters, hyphens and slashes, `parseGitURL` of
"git+https://github.com/" + owner + "/" + repo + "#" + ref succeeds with exactly
these three fields. -/
theorem parseGitURL_roundtrip (owner repo ref : String)
    (ho : owner.data ≠ []) (hoc : owner.data.all isOwnerChar = true)
    (hr : repo.data ≠ []) (hrc : repo.data.all isRepoChar = true)
    (hf : ref.data ≠ []) (hfc : ref.data.all isRefChar = true) :
    parseGitURL ("git+https://github.com/" ++ owner ++ "/" ++ repo ++ "#" ++ ref)
      = .ok ⟨owner, repo, ref⟩ := by
  have hacc : AcceptedBy ("git+https://github.com/" ++ owner ++ "/" ++ repo ++ "#" ++ ref).data
      owner.data repo.data ref.data := by
    refine ⟨ho, hoc, hr, hrc, hfc, ?_⟩
    simp [String.data_append, gitURLHead, hf]
  rw [parseGitURL_of_match (matchGitURL_complete hacc), if_neg hf]

theorem parseGitURL_roundtrip_witness :
    parseGitURL ("git+https://github.com/" ++ "acme" ++ "/" ++ "widgets" ++ "#" ++ "release-1")
      = .ok ⟨"acme", "widgets", "release-1"⟩ :=
  parseGitURL_roundtrip "acme" "widgets" "release-1" (by decide) (by decide) (by decide)
    (by decide) (by decide) (by decide)

/-- C2: when `parseGitURL` succeeds, Owner, Repository and Ref are non-empty;
an input without "#" gives Ref "main"; an input with a "#" gives as Ref the text
after it; and the result is determined by the input string. -/
theorem parseGitURL_ok_fields (url : String) (info : gitURLInfo)
    (h : parseGitURL url = .ok info) :
    info.Owner ≠ "" ∧ info.Repository ≠ "" ∧ info.Ref ≠ "" ∧
    ('#' ∉ url.data → info.Ref = "main") ∧
    (∀ before after : List Char, url.data = before ++ '#' :: after → info.Ref = ⟨after⟩) ∧
    (∀ info2 : gitURLInfo, parseGitURL url = .ok info2 → info2 = info) := by
  obtain ⟨owner, repo, ref, hm, hinfo⟩ := parseGitURL_ok_match h
  obtain ⟨ho, hoc, hr, hrc, hfc, hurl⟩ := matchGitURL_sound hm
  subst hinfo
  have hhead : '#' ∉ gitURLHead := by decide
  have hown : '#' ∉ owner := not_mem_of_all isOwnerChar '#' (by decide) owner hoc
  have hrepo : '#' ∉ repo := not_mem_of_all isRepoChar '#' (by decide) repo hrc
  have href : '#' ∉ ref := not_mem_of_all isRefChar '#' (by decide) ref hfc
  refine ⟨fun e => ho ((mk_eq_empty_iff owner).1 e), fun e => hr ((mk_eq_empty_iff repo).1 e),
    ?_, ?_, ?_, ?_⟩
  · by_cases hf : ref = []
    · simp only [hf, if_true]
      decide
    · simp only [hf, if_false]
      exact fun e => hf ((mk_eq_empty_iff ref).1 e)
  · intro hno
    by_cases hf : ref = []
    · simp [hf]
    · exfalso
      apply hno
      rw [hurl, if_neg hf]
      simp
  · intro before after hsplit
    by_cases hf : ref = []
    · exfalso
      have hmem : '#' ∈ url.data := by rw [hsplit]; simp
      rw [hurl, if_pos hf] at hmem
      simp only [List.append_nil, List.mem_append, List.mem_cons] at hmem
      rcases hmem with (h1 | h1) | h1 | h1
      · exact hhead h1
      · exact hown h1
      · exact absurd h1 (by decide)
      · exact hrepo h1
    · simp only [hf, if_false]
      rw [hurl, if_neg hf] at hsplit
      have hpre : '#' ∉ gitURLHead ++ owner ++ '/' :: repo := by
        simp only [List.mem_append, List.mem_cons, not_or]
        exact ⟨⟨hhead, hown⟩, by decide, hrepo⟩
      have := split_at_unique '#' _ ref before after hpre href hsplit
      rw [this]
  · intro info2 h2
    rw [h] at h2
    cases h2
    rfl

theorem parseGitURL_ok_fields_witness :
    (⟨"acme", "widgets", "main"⟩ : gitURLInfo).Owner ≠ "" ∧
    (⟨"acme", "widgets", "main"⟩ : gitURLInfo).Repository ≠ "" ∧
    (⟨"acme", "widgets", "main"⟩ : gitURLInfo).Ref ≠ "" ∧
    ('#' ∉ "git+https://github.com/acme/widgets".data →
      (⟨"acme", "widgets", "main"⟩ : gitURLInfo).Ref = "main") ∧
    (∀ before after : List Char, "git+https://github.com/acme/widgets".data = before ++ '#' :: after →
      (⟨"acme", "widgets", "main"⟩ : gitURLInfo).Ref = ⟨after⟩) ∧
    (∀ info2 : gitURLInfo, parseGitURL "git+https://github.com/acme/widgets" = .ok info2 →
      info2 = ⟨"acme", "widgets", "main"⟩) :=
  parseGitURL_ok_fields "git+https://github.com/acme/widgets" ⟨"acme", "widgets", "main"⟩
    (by decide)

theorem specNameChar_of_owner (l : List Char) (h : l.all isOwnerChar = true) :
    l.all specNameChar = true := by
  rw [List.all_eq_true] at h ⊢
  intro c hc
  have := h c hc
  simp only [isOwnerChar, Bool.or_eq_true] at this
  simp only [specNameChar, Bool.or_eq_true]
  exact Or.inl this

theorem specNameChar_of_repo (l : List Char) (h : l.all isRepoChar = true) :
    l.all specNameChar = true := by
  rw [List.all_eq_true] at h ⊢
  intro c hc
  have := h c hc
  simp only [isRepoChar, Bool.or_eq_true] at this
  simp only [specNameChar, Bool.or_eq_true]
  tauto

/-- C3: every string outside the reference grammar of the specification makes
`parseGitURL` return no reference at all, with the error
"URL does not match the expected format". -/
theorem parseGitURL_rejects (url : String) (h : ¬ MatchesSpecGrammar url) :
    parseGitURL url = .error "URL does not match the expected format" := by
  cases hm : matchGitURL url.data with
  | none => exact parseGitURL_of_none hm
  | some t =>
    exfalso
    obtain ⟨owner, repo, ref⟩ := t
    obtain ⟨ho, hoc, hr, hrc, hfc, hurl⟩ := matchGitURL_sound hm
    apply h
    refine ⟨owner, repo, ho, specNameChar_of_owner owner hoc, hr, specNameChar_of_repo repo hrc, ?_⟩
    by_cases hf : ref = []
    · left
      rw [hurl, if_pos hf]
      simp
    · right
      refine ⟨ref, hf, hfc, ?_⟩
      rw [hurl, if_neg hf]

theorem parseGitURL_rejects_witness :
    ¬ MatchesSpecGrammar "https://github.com/acme/widgets" ∧
    parseGitURL "https://github.com/acme/widgets"
      = .error "URL does not match the expected format" :=
  have hn : ¬ MatchesSpecGrammar "https://github.com/acme/widgets" := by
    rintro ⟨owner, repo, -, -, -, -, h | ⟨ref, -, -, h⟩⟩ <;>
      simp [gitURLHead] at h
  ⟨hn, parseGitURL_rejects "https://github.com/acme/widgets" hn⟩

/-- Rejected inputs named by the specification: a trailing bare "#", a trailing
newline, a disallowed character in the repo, a missing scheme marker. -/
theorem parseGitURL_rejected_examples :
    parseGitURL "git+https://github.com/acme/widgets#"
      = .error "URL does not match the expected format" ∧
    parseGitURL "git+https://github.com/acme/widgets\n"
      = .error "URL does not match the expected format" ∧
    parseGitURL "git+https://github.com/acme/wid gets"
      = .error "URL does not match the expected format" ∧
    parseGitURL "https://github.com/acme/widgets"
      = .error "URL does not match the expected format" := by
  decide

/-! ## Claims on `Validate` -/

theorem length_eq_zero_iff (t : String) : t.length = 0 ↔ t = "" := by
  constructor
  · intro h
    have hd : t.data = [] := List.length_eq_zero.mp h
    cases t
    simp only at hd
    subst hd
    rfl
  · intro h
    subst h
    rfl

/-- C4: `Validate` returns a nil error exactly when the trimmed `Path` is
non-empty and `Path` begins with "git+"; a blank `Path` gives "path is
required", a non-blank `Path` without the marker gives "only git paths are
currently supported"; both dependency lists are nil in every case, and the
result depends on `cfg.Path` only. -/
theorem Validate_spec (cfg : Config) (path : String) :
    ((cfg.Validate path).err = none ↔
      (stringsTrimSpace cfg.Path ≠ "" ∧ stringsHasPrefix cfg.Path "git+" = true)) ∧
    (stringsTrimSpace cfg.Path = "" → (cfg.Validate path).err = some "path is required") ∧
    (stringsTrimSpace cfg.Path ≠ "" → stringsHasPrefix cfg.Path "git+" = false →
      (cfg.Validate path).err = some "only git paths are currently supported") ∧
    (cfg.Validate path).implicitDeps = none ∧ (cfg.Validate path).optionalDeps = none ∧
    (∀ (cfg2 : Config) (path2 : String), cfg2.Path = cfg.Path →
      cfg2.Validate path2 = cfg.Validate path) := by
  have hlen := length_eq_zero_iff (stringsTrimSpace cfg.Path)
  refine ⟨?_, ?_, ?_, ?_, ?_, ?_⟩
  · unfold Config.Validate
    by_cases h0 : (stringsTrimSpace cfg.Path).length = 0
    · simp [h0, hlen.1 h0]
    · have hne : stringsTrimSpace cfg.Path ≠ "" := fun e => h0 (hlen.2 e)
      by_cases hp : stringsHasPrefix cfg.Path "git+" = true
      · simp [h0, hp, hne]
      · simp [h0, hp, hne]
  · intro h
    unfold Config.Validate
    simp [hlen.2 h]
  · intro hne hp
    have h0 : ¬ (stringsTrimSpace cfg.Path).length = 0 := fun e => hne (hlen.1 e)
    unfold Config.Validate
    simp [h0, hp]
  · unfold Config.Validate
    split
    · rfl
    · split <;> rfl
  · unfold Config.Validate
    split
    · rfl
    · split <;> rfl
  · intro cfg2 path2 h
    unfold Config.Validate
    rw [h]

theorem Validate_spec_witness :
    (((pathOnly "  ").Validate "cfg").err = none ↔
      (stringsTrimSpace (pathOnly "  ").Path ≠ "" ∧
        stringsHasPrefix (pathOnly "  ").Path "git+" = true)) ∧
    (stringsTrimSpace (pathOnly "  ").Path = "" →
      ((pathOnly "  ").Validate "cfg").err = some "path is required") ∧
    (stringsTrimSpace (pathOnly "  ").Path ≠ "" →
      stringsHasPrefix (pathOnly "  ").Path "git+" = false →
      ((pathOnly "  ").Validate "cfg").err = some "only git paths are currently supported") ∧
    ((pathOnly "  ").Validate "cfg").implicitDeps = none ∧
    ((pathOnly "  ").Validate "cfg").optionalDeps = none ∧
    (∀ (cfg2 : Config) (path2 : String), cfg2.Path = (pathOnly "  ").Path →
      cfg2.Validate path2 = (pathOnly "  ").Validate "cfg") :=
  Validate_spec (pathOnly "  ") "cfg"

/-- The three outcomes of `Validate` on concrete configurations. -/
theorem Validate_examples :
    (pathOnly "git+https://github.com/acme/widgets").Validate "" = ⟨none, none, none⟩ ∧
    (pathOnly " \t\n").Validate "" = ⟨none, none, some "path is required"⟩ ∧
    (pathOnly "").Validate "" = ⟨none, none, some "path is required"⟩ ∧
    (pathOnly " git+https://github.com/acme/widgets").Validate ""
      = ⟨none, none, some "only git paths are currently supported"⟩ ∧
    (pathOnly "/srv/site").Validate ""
      = ⟨none, none, some "only git paths are currently supported"⟩ := by
  decide

/-! ## Claims on the toolchain archive name -/

theorem getNodeFilenameAndExt_eq (rt : Runtime) (s : staticServerNodeServer) :
    getNodeFilenameAndExt rt s =
      ("node-" ++ getNodeVersion s ++ "-" ++ rt.GOOS ++ "-" ++
        (if stringsToLower rt.GOARCH = "amd64" then "x64"
         else if stringsToLower rt.GOARCH = "386" then "x86" else rt.GOARCH),
       if stringsToLower rt.GOOS = "windows" then "zip"
       else if stringsToLower rt.GOOS = "darwin" then "tar.gz" else "tar.xz") := by
  unfold getNodeFilenameAndExt
  have hx : ¬ stringsToLower "x64" = "386" := by decide
  by_cases ha : stringsToLower rt.GOARCH = "amd64"
  · by_cases hw : stringsToLower rt.GOOS = "windows"
    · simp [ha, hw, hx]
    · simp [ha, hw, hx]
  · by_cases hw : stringsToLower rt.GOOS = "windows"
    · simp [ha, hw]
    · simp [ha, hw]

theorem getNodeFilenameAndExt_lower_case (rt : Runtime) (s : staticServerNodeServer)
    (hos : stringsToLower rt.GOOS = rt.GOOS) (harch : stringsToLower rt.GOARCH = rt.GOARCH) :
    getNodeFilenameAndExt rt s =
      ("node-" ++ getNodeVersion s ++ "-" ++ rt.GOOS ++ "-" ++ specArchAlias rt.GOARCH,
       specExtension rt.GOOS) := by
  rw [getNodeFilenameAndExt_eq rt s, hos, harch]
  unfold specArchAlias specExtension
  by_cases hw : rt.GOOS = "windows"
  · simp [hw]
  · simp [hw]

/-- Every operating system and architecture name of the Go runtime is its own
lower case. -/
theorem knownRuntime_lower_case :
    (∀ os ∈ knownGOOS, stringsToLower os = os) ∧
    (∀ arch ∈ knownGOARCH, stringsToLower arch = arch) := by
  decide

/-- C6: on the platform and architecture strings of the Go runtime (lower-case
constants), `getNodeFilenameAndExt` returns the base name
"node-<version>-<platform>-<arch2>" where arch2 is "x64" for "amd64", "x86" for
"386" and the architecture string unchanged otherwise, with the extension
"tar.gz" for "darwin", "zip" for "windows" and "tar.xz" otherwise; and
`getNodeURL` is "https://nodejs.org/dist/<version>/<base name>.<extension>". -/
theorem getNodeFilenameAndExt_table (rt : Runtime) (s : staticServerNodeServer)
    (hos : stringsToLower rt.GOOS = rt.GOOS) (harch : stringsToLower rt.GOARCH = rt.GOARCH) :
    getNodeFilenameAndExt rt s =
      ("node-" ++ getNodeVersion s ++ "-" ++ rt.GOOS ++ "-" ++ specArchAlias rt.GOARCH,
       specExtension rt.GOOS) ∧
    getNodeURL rt s =
      "https://nodejs.org/dist/" ++ getNodeVersion s ++ "/" ++
        ("node-" ++ getNodeVersion s ++ "-" ++ rt.GOOS ++ "-" ++ specArchAlias rt.GOARCH) ++
        "." ++ specExtension rt.GOOS := by
  have h := getNodeFilenameAndExt_lower_case rt s hos harch
  refine ⟨h, ?_⟩
  unfold getNodeURL
  rw [h]

theorem getNodeFilenameAndExt_table_witness :
    (stringsToLower linuxRuntime.GOOS = linuxRuntime.GOOS ∧
      stringsToLower linuxRuntime.GOARCH = linuxRuntime.GOARCH) ∧
    getNodeFilenameAndExt linuxRuntime ⟨"foo", pathOnly ""⟩
      = ("node-v22.19.0-linux-x64", "tar.xz") ∧
    getNodeURL linuxRuntime ⟨"foo", pathOnly ""⟩
      = "https://nodejs.org/dist/v22.19.0/node-v22.19.0-linux-x64.tar.xz" :=
  have h := getNodeFilenameAndExt_table linuxRuntime ⟨"foo", pathOnly ""⟩ (by decide) (by decide)
  ⟨⟨by decide, by decide⟩, h.1.trans (by decide), h.2.trans (by decide)⟩

/-- The table on the three extensions and the two aliases, and on an
architecture that passes unchanged. -/
theorem getNodeFilenameAndExt_examples :
    getNodeFilenameAndExt ⟨"darwin", "arm64", "/tmp", fun _ => ""⟩ ⟨"foo", pathOnly ""⟩
      = ("node-v22.19.0-darwin-arm64", "tar.gz") ∧
    getNodeFilenameAndExt ⟨"windows", "386", "/tmp", fun _ => ""⟩ ⟨"foo", pathOnly ""⟩
      = ("node-v22.19.0-windows-x86", "zip") ∧
    getNodeFilenameAndExt ⟨"linux", "amd64", "/tmp", fun _ => ""⟩ ⟨"foo", pathOnly ""⟩
      = ("node-v22.19.0-linux-x64", "tar.xz") ∧
    getNodeFilenameAndExt ⟨"freebsd", "riscv64", "/tmp", fun _ => ""⟩ ⟨"foo", pathOnly ""⟩
      = ("node-v22.19.0-freebsd-riscv64", "tar.xz") := by
  decide

/-- The archive of the default version on Linux and `amd64`. -/
theorem getNodeURL_example :
    getNodeURL linuxRuntime ⟨"foo", pathOnly ""⟩
      = "https://nodejs.org/dist/v22.19.0/node-v22.19.0-linux-x64.tar.xz" := by
  decide

/-! ## Claims on the toolchain cache -/

theorem osMkdirAll_of_dir (fs : FS) (path : String) (h : osStat fs path = some Entry.dir) :
    osMkdirAll fs path = .ok fs := by
  unfold osMkdirAll
  rw [h]

theorem getCacheDir_of_dir (rt : Runtime) (s : staticServerNodeServer) (w : World)
    (h : osStat w.fs (cacheDirPath rt s) = some Entry.dir) :
    getCacheDir rt s w = (w, .ok (cacheDirPath rt s)) := by
  unfold getCacheDir
  simp only [osMkdirAll_of_dir w.fs _ h]

theorem isNodeDownloaded_of_entry (rt : Runtime) (s : staticServerNodeServer) (w : World)
    (hdir : osStat w.fs (cacheDirPath rt s) = some Entry.dir)
    (hentry : (osStat w.fs
      (filepathJoin [cacheDirPath rt s, (getNodeFilenameAndExt rt s).1])).isSome = true) :
    isNodeDownloaded rt s w =
      (w, true, filepathJoin [cacheDirPath rt s, (getNodeFilenameAndExt rt s).1]) := by
  unfold isNodeDownloaded
  rw [getCacheDir_of_dir rt s w hdir]
  obtain ⟨e, he⟩ := Option.isSome_iff_exists.mp hentry
  simp only [he]

/-- C5: when the cache directory of the instance exists and holds an entry
named with the expected archive base name, `downloadNode` returns
`<cacheDir>/<base name>` with a nil error, issues no request, runs no
subprocess and leaves the file system as it was; a second call gives the same
result as the first. -/
theorem downloadNode_cache_hit (out : Outside) (rt : Runtime) (s : staticServerNodeServer)
    (w : World) (hdir : osStat w.fs (cacheDirPath rt s) = some Entry.dir)
    (hentry : (osStat w.fs
      (filepathJoin [cacheDirPath rt s, (getNodeFilenameAndExt rt s).1])).isSome = true) :
    (downloadNode out rt s w).2 =
      .ok (filepathJoin [cacheDirPath rt s, (getNodeFilenameAndExt rt s).1]) ∧
    (downloadNode out rt s w).1.requests = w.requests ∧
    (downloadNode out rt s w).1.fs = w.fs ∧
    (downloadNode out rt s w).1.commands = w.commands ∧
    (downloadNode out rt s (downloadNode out rt s w).1).2 = (downloadNode out rt s w).2 := by
  have h : downloadNode out rt s w =
      (w, .ok (filepathJoin [cacheDirPath rt s, (getNodeFilenameAndExt rt s).1])) := by
    unfold downloadNode
    rw [isNodeDownloaded_of_entry rt s w hdir hentry]
  rw [h]
  simp only [h, and_self]

theorem downloadNode_cache_hit_witness :
    (downloadNode cooperativeOutside linuxRuntime ⟨"foo", pathOnly ""⟩ cachedWorld).2 =
      .ok "/tmp/viam/viam/static-server-node/server/foo/node-v22.19.0-linux-x64" ∧
    (downloadNode cooperativeOutside linuxRuntime ⟨"foo", pathOnly ""⟩ cachedWorld).1.requests
      = [] ∧
    (downloadNode cooperativeOutside linuxRuntime ⟨"foo", pathOnly ""⟩ cachedWorld).1.fs
      = cachedWorld.fs := by
  have h := downloadNode_cache_hit cooperativeOutside linuxRuntime ⟨"foo", pathOnly ""⟩
    cachedWorld (by decide) (by decide)
  exact ⟨h.1.trans (by decide), h.2.1, h.2.2.1⟩

/-- On a cache miss the same call does go to the network. -/
theorem downloadNode_cache_miss_example :
    (downloadNode cooperativeOutside linuxRuntime ⟨"foo", pathOnly ""⟩ emptyWorld).1.requests =
      [⟨"/tmp/viam/viam/static-server-node/server/foo",
        "https://nodejs.org/dist/v22.19.0/node-v22.19.0-linux-x64.tar.xz", []⟩] := by
  decide

/-! ## Claims on the build step -/

/-- C7 (code at the failing input): the manifest `package.json` inside the
project directory contains "rollup", yet `getBuilder` answers "vite": it reads
the path `projectDir + "package.json"`, which lacks the separator and names a
sibling of the project directory. -/
theorem getBuilder_misses_manifest :
    osReadFile rollupProject (filepathJoin ["/cache/acme-widgets-1a2b3c", "package.json"])
      = .ok rollupManifest ∧
    stringsContains rollupManifest "rollup" = true ∧
    "/cache/acme-widgets-1a2b3c" ++ "package.json" = "/cache/acme-widgets-1a2b3cpackage.json" ∧
    osReadFile rollupProject ("/cache/acme-widgets-1a2b3c" ++ "package.json")
      = .error "no such file or directory" ∧
    getBuilder rollupProject "/cache/acme-widgets-1a2b3c" = "vite" := by
  decide

/-- The path `getBuilder` reads, and what it answers from the file there. -/
theorem getBuilder_spec (fs : FS) (projectDir : String) :
    getBuilder fs projectDir =
      match osReadFile fs (projectDir ++ "package.json") with
      | .error _ => "vite"
      | .ok manifest =>
        if stringsContains manifest "rollup" then "rollup"
        else if stringsContains manifest "wepback" then "webpack" else "vite" := by
  rfl

/-- C8 (counterexample): both subprocesses succeed and `<projectDir>/dist` is a
regular file, not a directory; `buildAndGetFS` returns a handle rooted there and
no error. -/
theorem buildAndGetFS_accepts_file :
    (cooperativeOutside.run
      (installCmd linuxRuntime "/cache/node" "/cache/acme-widgets-1a2b3c") distFileProject).2
        = none ∧
    (cooperativeOutside.run
      (buildCmd linuxRuntime ⟨"foo", pathOnly "git+https://github.com/acme/widgets"⟩
        distFileProject "/cache/node" "/cache/acme-widgets-1a2b3c") distFileProject).2 = none ∧
    osStat distFileProject "/cache/acme-widgets-1a2b3c/dist" = some (Entry.file "not a directory") ∧
    (buildAndGetFS cooperativeOutside linuxRuntime
      ⟨"foo", pathOnly "git+https://github.com/acme/widgets"⟩
      "/cache/node" "/cache/acme-widgets-1a2b3c" ⟨distFileProject, [], []⟩).2
        = .ok "/cache/acme-widgets-1a2b3c/dist" := by
  decide

theorem buildAndGetFS_after_runs (out : Outside) (rt : Runtime) (s : staticServerNodeServer)
    (nodeDir projectDir : String) (w : World) (fs1 fs2 : FS)
    (h1 : out.run (installCmd rt nodeDir projectDir) w.fs = (fs1, none))
    (h2 : out.run (buildCmd rt s fs1 nodeDir projectDir) fs1 = (fs2, none)) :
    buildAndGetFS out rt s nodeDir projectDir w =
      (⟨fs2, w.requests, w.commands ++ [installCmd rt nodeDir projectDir] ++
          [buildCmd rt s fs1 nodeDir projectDir]⟩,
        match osStat fs2 (buildDirPath s projectDir) with
        | none => .error "no such file or directory"
        | some _ => .ok (buildDirPath s projectDir)) := by
  unfold buildAndGetFS
  simp only [h1, h2]
  cases osStat fs2 (buildDirPath s projectDir) <;> rfl

/-- C8 (amended): after both subprocesses succeed, the output path is
`projectDir` joined with the configured `BuildDir`, or with "dist" when
`BuildDir` is nil or blank; if nothing exists at that path `buildAndGetFS`
returns an error and no handle, and if anything exists there it returns a
handle rooted at exactly that path. -/
theorem buildAndGetFS_output (out : Outside) (rt : Runtime) (s : staticServerNodeServer)
    (nodeDir projectDir : String) (w : World)
    (hinstall : (out.run (installCmd rt nodeDir projectDir) w.fs).2 = none)
    (hbuild : (out.run (buildCmd rt s (out.run (installCmd rt nodeDir projectDir) w.fs).1
        nodeDir projectDir) (out.run (installCmd rt nodeDir projectDir) w.fs).1).2 = none) :
    buildDirPath s projectDir =
      filepathJoin [projectDir,
        if isStringRefEmpty s.cfg.BuildDir then "dist" else s.cfg.BuildDir.getD ""] ∧
    (osStat (buildAndGetFS out rt s nodeDir projectDir w).1.fs (buildDirPath s projectDir) = none →
      (buildAndGetFS out rt s nodeDir projectDir w).2 = .error "no such file or directory") ∧
    (osStat (buildAndGetFS out rt s nodeDir projectDir w).1.fs (buildDirPath s projectDir) ≠ none →
      (buildAndGetFS out rt s nodeDir projectDir w).2 = .ok (buildDirPath s projectDir)) ∧
    (buildAndGetFS out rt s nodeDir projectDir w).1.fs =
      (out.run (buildCmd rt s (out.run (installCmd rt nodeDir projectDir) w.fs).1
        nodeDir projectDir) (out.run (installCmd rt nodeDir projectDir) w.fs).1).1 := by
  refine ⟨?_, ?_⟩
  · unfold buildDirPath
    by_cases hb : isStringRefEmpty s.cfg.BuildDir = true
    · simp [hb]
    · simp [hb]
  · have hr1 : out.run (installCmd rt nodeDir projectDir) w.fs =
        ((out.run (installCmd rt nodeDir projectDir) w.fs).1, none) := Prod.ext rfl hinstall
    have hr2 : out.run (buildCmd rt s (out.run (installCmd rt nodeDir projectDir) w.fs).1
          nodeDir projectDir) (out.run (installCmd rt nodeDir projectDir) w.fs).1 =
        ((out.run (buildCmd rt s (out.run (installCmd rt nodeDir projectDir) w.fs).1
          nodeDir projectDir) (out.run (installCmd rt nodeDir projectDir) w.fs).1).1, none) :=
      Prod.ext rfl hbuild
    rw [buildAndGetFS_after_runs out rt s nodeDir projectDir w _ _ hr1 hr2]
    cases hst : osStat (out.run (buildCmd rt s
      (out.run (installCmd rt nodeDir projectDir) w.fs).1 nodeDir projectDir)
      (out.run (installCmd rt nodeDir projectDir) w.fs).1).1 (buildDirPath s projectDir) with
    | none => simp [hst]
    | some e => simp [hst]

theorem buildAndGetFS_output_witness :
    buildDirPath ⟨"foo", pathOnly "git+https://github.com/acme/widgets"⟩
      "/cache/acme-widgets-1a2b3c" = "/cache/acme-widgets-1a2b3c/dist" ∧
    osStat rollupProject "/cache/acme-widgets-1a2b3c/dist" = none ∧
    (buildAndGetFS cooperativeOutside linuxRuntime
      ⟨"foo", pathOnly "git+https://github.com/acme/widgets"⟩
      "/cache/node" "/cache/acme-widgets-1a2b3c" ⟨rollupProject, [], []⟩).2
        = .error "no such file or directory" :=
  ⟨by decide, by decide,
    (buildAndGetFS_output cooperativeOutside linuxRuntime
      ⟨"foo", pathOnly "git+https://github.com/acme/widgets"⟩
      "/cache/node" "/cache/acme-widgets-1a2b3c" ⟨rollupProject, [], []⟩
      (by decide) (by decide)).2.1 (by decide)⟩

/-- C9 (code at the failing input): on Windows the install step runs
`<nodeDir>/npm`, but the build step runs `<nodeDir>/bin/npx` and the path put
before "run build" in its command line is `<nodeDir>/npx`: the second platform
test assigns the variable `npm` where `npx` was meant. -/
theorem buildAndGetFS_windows_tools :
    installCmd windowsRuntime "/cache/node" "/cache/acme-widgets-1a2b3c"
      = ⟨"/cache/node/npm", ["install"], "/cache/acme-widgets-1a2b3c"⟩ ∧
    buildCmd windowsRuntime ⟨"foo", pathOnly "git+https://github.com/acme/widgets"⟩ rollupProject
        "/cache/node" "/cache/acme-widgets-1a2b3c"
      = ⟨"/cache/node/bin/npx",
         ["--yes", "cross-env", "VITE_VIAM_API_KEY=", "VITE_VIAM_API_KEY_ID=",
          "/cache/node/npx", "run", "build"],
         "/cache/acme-widgets-1a2b3c"⟩ ∧
    (buildAndGetFS cooperativeOutside windowsRuntime
      ⟨"foo", pathOnly "git+https://github.com/acme/widgets"⟩
      "/cache/node" "/cache/acme-widgets-1a2b3c" ⟨rollupProject, [], []⟩).1.commands
      = [⟨"/cache/node/npm", ["install"], "/cache/acme-widgets-1a2b3c"⟩,
         ⟨"/cache/node/bin/npx",
          ["--yes", "cross-env", "VITE_VIAM_API_KEY=", "VITE_VIAM_API_KEY_ID=",
           "/cache/node/npx", "run", "build"],
          "/cache/acme-widgets-1a2b3c"⟩] := by
  decide

/-- The tool paths on every platform other than Windows, and on Windows. -/
theorem tool_paths (rt : Runtime) (nodeDir projectDir : String) :
    (rt.GOOS ≠ "windows" →
      (installCmd rt nodeDir projectDir).path = filepathJoin [nodeDir, "bin", "npm"] ∧
      npxAtBuild nodeDir = filepathJoin [nodeDir, "bin", "npx"] ∧
      npmAtBuild rt nodeDir = filepathJoin [nodeDir, "bin", "npm"]) ∧
    (rt.GOOS = "windows" →
      (installCmd rt nodeDir projectDir).path = filepathJoin [nodeDir, "npm"] ∧
      npxAtBuild nodeDir = filepathJoin [nodeDir, "bin", "npx"] ∧
      npmAtBuild rt nodeDir = filepathJoin [nodeDir, "npx"]) := by
  constructor
  · intro h
    simp [installCmd, npxAtBuild, npmAtBuild, h]
  · intro h
    simp [installCmd, npxAtBuild, npmAtBuild, h]

/-! ## Claims on `NewServer` -/

/-- C10 (code at the failing input): with the empty configuration of the
command-line program, which `Validate` rejects, `NewServer` creates the cache
directory, issues the toolchain download and only then returns the error
"UNREACHABLE CODE PATH". -/
theorem NewServer_empty_config_downloads :
    (pathOnly "").Validate "" = ⟨none, none, some "path is required"⟩ ∧
    osStat emptyWorld.fs "/tmp/viam/viam/static-server-node/server/foo" = none ∧
    (NewServer cooperativeOutside linuxRuntime "foo" (pathOnly "") emptyWorld).2
      = .error "UNREACHABLE CODE PATH" ∧
    (NewServer cooperativeOutside linuxRuntime "foo" (pathOnly "") emptyWorld).1.requests
      = [⟨"/tmp/viam/viam/static-server-node/server/foo",
          "https://nodejs.org/dist/v22.19.0/node-v22.19.0-linux-x64.tar.xz", []⟩] ∧
    osStat (NewServer cooperativeOutside linuxRuntime "foo" (pathOnly "") emptyWorld).1.fs
      "/tmp/viam/viam/static-server-node/server/foo" = some Entry.dir := by
  decide

theorem getCacheDir_commands (rt : Runtime) (s : staticServerNodeServer) (w : World) :
    (getCacheDir rt s w).1.commands = w.commands := by
  unfold getCacheDir
  simp only
  cases osMkdirAll w.fs (cacheDirPath rt s) <;> rfl

theorem isNodeDownloaded_commands (rt : Runtime) (s : staticServerNodeServer) (w : World) :
    (isNodeDownloaded rt s w).1.commands = w.commands := by
  have h := getCacheDir_commands rt s w
  unfold isNodeDownloaded
  rcases hg : getCacheDir rt s w with ⟨w1, e | cache⟩
  · rw [hg] at h
    exact h
  · rw [hg] at h
    simp only
    cases osStat w1.fs (filepathJoin [cache, (getNodeFilenameAndExt rt s).1]) <;> exact h

theorem prepareCacheDir_commands (rt : Runtime) (s : staticServerNodeServer) (w : World) :
    (prepareCacheDir rt s w).1.commands = w.commands := by
  have h := getCacheDir_commands rt s w
  unfold prepareCacheDir
  rcases hg : getCacheDir rt s w with ⟨w1, e | cache⟩
  · rw [hg] at h
    exact h
  · rw [hg] at h
    simp only
    cases osReadDir w1.fs cache <;> exact h

theorem fetchAndUnpack_commands (out : Outside) (cacheDir : String) (req : Request) (w : World) :
    (fetchAndUnpack out cacheDir req w).1.commands = w.commands := by
  unfold fetchAndUnpack
  simp only
  rcases out.transfer req w.fs with ⟨fs2, e | filename⟩
  · rfl
  · simp only
    cases osOpen fs2 filename with
    | error e => rfl
    | ok fname =>
      simp only
      rcases out.unpack cacheDir fname fs2 with ⟨fs3, _ | e⟩ <;> rfl

theorem downloadNode_commands (out : Outside) (rt : Runtime) (s : staticServerNodeServer)
    (w : World) : (downloadNode out rt s w).1.commands = w.commands := by
  have h1 := isNodeDownloaded_commands rt s w
  unfold downloadNode
  rcases hi : isNodeDownloaded rt s w with ⟨w1, b, nodePath⟩
  rw [hi] at h1
  cases b
  · have h2 := (prepareCacheDir_commands rt s w1).trans h1
    simp only
    by_cases hreq : out.newRequestOk (getNodeURL rt s) = true
    · simp only [hreq, Bool.not_true, Bool.false_eq_true, if_false]
      have h3 := fetchAndUnpack_commands out (prepareCacheDir rt s w1).2
        ⟨(prepareCacheDir rt s w1).2, getNodeURL rt s, []⟩ (prepareCacheDir rt s w1).1
      rcases hf : fetchAndUnpack out (prepareCacheDir rt s w1).2
        ⟨(prepareCacheDir rt s w1).2, getNodeURL rt s, []⟩ (prepareCacheDir rt s w1).1
        with ⟨w3, e | v⟩
      · rw [hf] at h3
        exact h3.trans h2
      · rw [hf] at h3
        exact h3.trans h2
    · simp only [hreq, Bool.not_false, if_true]
      exact h2
  · exact h1

/-- For a `Path` without the marker "git+", `NewServer` always ends in an
error, runs no subprocess and issues no request other than toolchain downloads. -/
theorem NewServer_invalid_path (out : Outside) (rt : Runtime) (name : String) (conf : Config)
    (w : World) (h : stringsHasPrefix conf.Path "git+" = false) :
    (∃ e, (NewServer out rt name conf w).2 = .error e) ∧
    (NewServer out rt name conf w).1.commands = w.commands ∧
    (NewServer out rt name conf w).1 = (downloadNode out rt ⟨name, conf⟩ w).1 := by
  have hc := downloadNode_commands out rt ⟨name, conf⟩ w
  unfold NewServer
  simp only
  rcases hd : downloadNode out rt ⟨name, conf⟩ w with ⟨w1, e | nodeDir⟩
  · rw [hd] at hc
    exact ⟨⟨e, rfl⟩, hc, rfl⟩
  · rw [hd] at hc
    have hp : getProjectDir out rt ⟨name, conf⟩ w1 = (w1, .error "UNREACHABLE CODE PATH") := by
      unfold getProjectDir
      simp [h]
    simp only [hp]
    exact ⟨⟨_, rfl⟩, hc, trivial⟩

end StaticServerNode
